import Mathlib

/-!
Verification of the bidirectional JSON codec combinator library
(`src/libs/json/decoder.ts`, `src/libs/json/encoder.ts`,
`src/libs/json/schema.ts`) of the commit-tools repository.

The TypeScript sources are shallowly embedded:

* Runtime JavaScript values are modelled by the inductive type `RV`
  (null, undefined, string, number, boolean, array, plain object,
  and the `Just`/`Nothing` instances of the repository's Maybe library).
* JavaScript numbers are modelled as either a finite payload or one of
  the non-finite values `NaN`, `Infinity`, `-Infinity`; the codec never
  performs arithmetic on numbers, it only tests `typeof` and
  `Number.isFinite`, so this is a faithful abstraction.
* A `Decoder` is a total function `RV → DecodeResult` (the decoder
  sources contain no `throw`; the only throwing host call, `JSON.parse`,
  is wrapped in `try/catch` and is modelled as an `Option`-returning
  parameter).
* An `Encoder` is a function `RV → Except String RV`; `.error` models a
  thrown exception.
-/

/-- Modelled from the spec: the `@/libs/result` module (class `Result`
with constructors `Success`/`Failure` and methods `map`, `chain`,
`mapFailure`) is imported by `decoder.ts` but is not among the source
files. Spec §3: "DecodeResult<T>: either a success carrying a `T`, or a
failure carrying `(Path, message: string)`. Exactly one variant holds at
a time." `chain` sequences and short-circuits on failure. -/
inductive Result (E A : Type) where
  | Failure (error : E)
  | Success (value : A)

def Result.map {E A B : Type} (f : A → B) : Result E A → Result E B
  | .Failure e => .Failure e
  | .Success v => .Success (f v)

def Result.chain {E A B : Type} (f : A → Result E B) : Result E A → Result E B
  | .Failure e => .Failure e
  | .Success v => f v

def Result.mapFailure {E F A : Type} (f : E → F) : Result E A → Result F A
  | .Failure e => .Failure (f e)
  | .Success v => .Success v

/-- A JavaScript number: either a finite value (the payload is opaque to
the codec, which only tests finiteness, so an `Int` payload suffices for
the values the codec observes) or one of `NaN`, `Infinity`, `-Infinity`. -/
inductive JsNum where
  | finite (v : Int)
  | nan
  | posInf
  | negInf
deriving DecidableEq, Repr

/-- `Number.isFinite` (no coercion is involved: the encoder receives an
actual number or the check is false). -/
def JsNum.isFinite : JsNum → Bool
  | .finite _ => true
  | _ => false

/-- `String(n)` for the number values the codec displays in error
messages. Non-finite numbers render as `NaN` / `Infinity` / `-Infinity`;
finite payloads render via their integer representation. -/
def JsNum.display : JsNum → String
  | .finite v => toString v
  | .nan => "NaN"
  | .posInf => "Infinity"
  | .negInf => "-Infinity"

/-- A JavaScript runtime value as seen by the codec: the JSON shapes
plus `undefined` and the `Just`/`Nothing` instances of `libs/maybe.ts`
(which the `maybe`/optional combinators produce and consume). Objects
are association lists in property insertion order. -/
inductive RV where
  | null
  | undefined
  | str (s : String)
  | num (n : JsNum)
  | bool (b : Bool)
  | arr (elems : List RV)
  | obj (fields : List (String × RV))
  | just (value : RV)
  | nothing

/-- JavaScript `typeof`. (`typeof null` is `"object"`; arrays and
`Just`/`Nothing` class instances are objects.) -/
def typeofRV : RV → String
  | .null => "object"
  | .undefined => "undefined"
  | .str _ => "string"
  | .num _ => "number"
  | .bool _ => "boolean"
  | .arr _ => "object"
  | .obj _ => "object"
  | .just _ => "object"
  | .nothing => "object"

def isNullish : RV → Bool
  | .null => true
  | .undefined => true
  | _ => false

/-- `v === null`. -/
def isNullRV : RV → Bool
  | .null => true
  | _ => false

mutual
/-- JavaScript `String(v)` string conversion, for the values the codec
interpolates into error messages: plain objects render as
`[object Object]`, arrays join their elements with `,` (nullish
elements rendering as the empty string), and the Maybe instances use the
`toString` methods defined in `libs/maybe.ts`. -/
def jsDisplay : RV → String
  | .null => "null"
  | .undefined => "undefined"
  | .str s => s
  | .num n => n.display
  | .bool b => if b then "true" else "false"
  | .arr elems => String.intercalate "," (jsDisplayElems elems)
  | .obj _ => "[object Object]"
  | .just v => "Just(" ++ jsDisplay v ++ ")"
  | .nothing => "Nothing()"

def jsDisplayElems : List RV → List String
  | [] => []
  | v :: vs => (if isNullish v then "" else jsDisplay v) :: jsDisplayElems vs
end

def isDigitC (c : Char) : Bool := '0' ≤ c && c ≤ '9'

def digitsVal : List Char → Nat → Nat
  | [], acc => acc
  | c :: cs, acc => digitsVal cs (acc * 10 + (c.toNat - '0'.toNat))

/-- A canonical JavaScript array-index property name: a digit string
with no superfluous leading zero (`"0"`, `"12"`, but not `"00"` or
`"a"`). -/
def canonIndexOpt (s : String) : Option Nat :=
  if (match s.data with
      | [] => false
      | ['0'] => true
      | c :: cs => isDigitC c && c != '0' && cs.all isDigitC) then
    some (digitsVal s.data 0)
  else none

/-- JavaScript property read `val[key]`, returning `undefined` for an
absent key. On plain objects this is association-list lookup (first
binding wins); on arrays, canonical numeric indices and `length` are
readable; `Just` instances expose their `value` field. Properties
inherited from prototypes (methods such as `toString`) are not
modelled: the codec only reads data properties. -/
def objGet (v : RV) (key : String) : RV :=
  match v with
  | .obj fields => (List.lookup key fields).getD .undefined
  | .arr elems =>
    if key == "length" then .num (.finite elems.length)
    else
      match canonIndexOpt key with
      | some i => elems.getD i .undefined
      | none => .undefined
  | .just x => if key == "value" then x else .undefined
  | _ => .undefined

/-- JavaScript `key in val` presence test (own data properties; see
`objGet` about prototype-inherited properties, which are not modelled). -/
def hasKey (v : RV) (key : String) : Bool :=
  match v with
  | .obj fields => (List.lookup key fields).isSome
  | .arr elems =>
    key == "length" ||
      (match canonIndexOpt key with
       | some i => i < elems.length
       | none => false)
  | .just _ => key == "value"
  | _ => false

mutual
/-- Every number occurring inside the value is finite (the domain on
which the `number` encoder does not throw). -/
def finiteSafe : RV → Bool
  | .num n => n.isFinite
  | .arr elems => finiteSafeList elems
  | .obj fields => finiteSafeFields fields
  | .just v => finiteSafe v
  | _ => true

def finiteSafeList : List RV → Bool
  | [] => true
  | v :: vs => finiteSafe v && finiteSafeList vs

def finiteSafeFields : List (String × RV) → Bool
  | [] => true
  | (_, v) :: rest => finiteSafe v && finiteSafeFields rest
end

/-! ## Decoder layer (`src/libs/json/decoder.ts`)

A `Decoder<T>` is a class wrapping a pure function
`run : unknown → DecodeResult<T>`. The embedding is runtime-faithful:
every decoder is the function `RV → DecodeResult`, the decoded value
being the runtime value the TypeScript `run` would return inside
`Success`. -/

abbrev JPath := List String

abbrev DecodeResult := Result (JPath × String) RV

abbrev Dec := RV → DecodeResult

/-- `showPath([path, error]) = error + ". When parsing: " + Array.from(path).join(".")`. -/
def showPath : JPath × String → String
  | (path, error) => error ++ ". When parsing: " ++ String.intercalate "." path

/-- Top-level entry point `decode(input, decoder)`:
`decoder.run(input).mapFailure(showPath)`. -/
def decode (d : Dec) (input : RV) : Result String RV :=
  (d input).mapFailure showPath

namespace D

/-- `failure(msg)`: a failure at the empty path. -/
def failureAt (msg : String) : DecodeResult := .Failure ([], msg)

/-- `fail(msg)`: the decoder that always fails with `msg`. -/
def fail (msg : String) : Dec := fun _ => failureAt msg

/-- `succeed(v)` / `always(v)`: the decoder that always succeeds with `v`. -/
def succeed (v : RV) : Dec := fun _ => .Success v

/-- `any`: never fails, returns the input unchanged. -/
def any : Dec := fun v => .Success v

/-- `Decoder.map(f)`: transforms the success value. -/
def mapDec (d : Dec) (f : RV → RV) : Dec := fun u => (d u).map f

/-- `Decoder.chain(f)`: `run(u).chain(v => f(v).run(u))`. -/
def chainDec (d : Dec) (f : RV → Dec) : Dec := fun u => (d u).chain (fun v => f v u)

/-- `string`: succeeds iff `typeof v === "string"`. -/
def string : Dec := fun v =>
  if typeofRV v == "string" then .Success v
  else failureAt ("expected string but found " ++ typeofRV v)

/-- `number`: succeeds iff `typeof v === "number"` (so `NaN` and the
infinities are accepted). -/
def number : Dec := fun v =>
  if typeofRV v == "number" then .Success v
  else failureAt ("expected number but found " ++ typeofRV v)

/-- `boolean`: succeeds iff `typeof v === "boolean"`. -/
def boolean : Dec := fun v =>
  if typeofRV v == "boolean" then .Success v
  else failureAt ("expected boolean but found " ++ typeofRV v)

/-- `nullP`: succeeds iff `v === null`. -/
def nullP : Dec := fun v =>
  match v with
  | .null => .Success .null
  | _ => failureAt ("expected null but found " ++ typeofRV v)

/-- `stringLiteral(str)`: succeeds iff `v === str`. -/
def stringLiteral (lit : String) : Dec := fun v =>
  match v with
  | .str s =>
    if s == lit then .Success (.str s)
    else failureAt ("expected '" ++ lit ++ "' but found '" ++ jsDisplay v ++ "'")
  | _ => failureAt ("expected '" ++ lit ++ "' but found '" ++ jsDisplay v ++ "'")

/-- A field of an `object()` definition: either a plain `Decoder` or a
`DecoderOptional` (carrying its composed inner decoder, which speaks the
`{nothing:{}}` / `{just: v}` presence protocol). -/
inductive FieldDef where
  | plain (d : Dec)
  | opt (d : Dec)

/-- Running one field definition against the raw property value
(`obj[field]`, which is `undefined` when the key is absent): a
`DecoderOptional` receives the presence wrapper, a plain decoder the raw
value itself. -/
def runField (fd : FieldDef) (raw : RV) : DecodeResult :=
  match fd with
  | .plain d => d raw
  | .opt d =>
    match raw with
    | .undefined => d (.obj [("nothing", .obj [])])
    | _ => d (.obj [("just", raw)])

/-- The field loop of `object()`: decode each declared field in order,
aborting at the first failure with the failing field's name prepended to
its path, and otherwise collecting the decoded `(field, value)` pairs in
declaration order. -/
def decFields : List (String × FieldDef) → RV → Result (JPath × String) (List (String × RV))
  | [], _ => .Success []
  | (name, fd) :: rest, input =>
    match runField fd (objGet input name) with
    | .Failure (path, msg) => .Failure (name :: path, msg)
    | .Success v =>
      match decFields rest input with
      | .Failure e => .Failure e
      | .Success r => .Success ((name, v) :: r)

/-- `object(decoders)`: fails with "expected object" when
`typeof input !== "object" || input === null` (note: arrays and
`Just`/`Nothing` instances pass this check, there is no `Array.isArray`
test), then runs the field loop. Extra keys of the input are ignored. -/
def object (fds : List (String × FieldDef)) : Dec := fun input =>
  if typeofRV input != "object" || isNullRV input then
    failureAt ("expected object but found " ++ typeofRV input)
  else
    (decFields fds input).map RV.obj

/-- The accumulation loop of `oneOf`: errors are collected in branch
order; when every branch failed the aggregate failure carries the empty
path and the branch errors rendered by `showPath`, joined by newlines. -/
def oneOfGo : List Dec → RV → List (JPath × String) → DecodeResult
  | [], _, errors => .Failure ([], String.intercalate "\n" (errors.map showPath))
  | d :: rest, input, errors =>
    match d input with
    | .Success v => .Success v
    | .Failure e => oneOfGo rest input (errors ++ [e])

/-- `oneOf(decoders)`: first success wins; otherwise the aggregated failure. -/
def oneOf (ds : List Dec) : Dec := fun input => oneOfGo ds input []

/-- `maybe(decoder)`: the explicit `{nothing:{}}` / `{just: v}` wire
protocol, built as `oneOf` of two object decoders mapped onto the
`Nothing()` / `Just(v.just)` runtime instances. -/
def maybe (d : Dec) : Dec :=
  oneOf
    [mapDec (object [("nothing", .plain (object []))]) (fun _ => RV.nothing),
     mapDec (object [("just", .plain d)]) (fun v => RV.just (objGet v "just"))]

/-- `Maybe.withDefault` from `libs/maybe.ts`: `Just x ↦ x`, `Nothing ↦ def`. -/
def rvWithDefault (dflt : RV) : RV → RV
  | .just x => x
  | _ => dflt

/-- `optionalMaybe(decoder)` = `DecoderOptional.from(decoder)` =
the optional field whose inner decoder is `maybe(decoder)`. -/
def optionalMaybe (d : Dec) : FieldDef := .opt (maybe d)

/-- `optionalDefault(def, decoder)`: `optionalMaybe(decoder).map(v => v.withDefault(def))`. -/
def optionalDefault (dflt : RV) (d : Dec) : FieldDef :=
  .opt (mapDec (maybe d) (rvWithDefault dflt))

/-- `stringified(inner)`: decode a string, `JSON.parse` it inside
`try/catch` (the host parser is the `parse` parameter; `none` models a
thrown parse exception, which becomes the `"Invalid JSON string"`
failure), then run `inner` on the parsed value. -/
def stringified (parse : String → Option RV) (inner : Dec) : Dec :=
  chainDec
    (chainDec string (fun v =>
      match v with
      | .str s =>
        match parse s with
        | some j => succeed j
        | none => fail "Invalid JSON string"
      | _ => fail "Invalid JSON string"))
    (fun j => fun _ => inner j)

end D

/-! ## Encoder layer (`src/libs/json/encoder.ts`)

An `Encoder<A>` wraps `run : A → Json` and may throw (`number`,
`stringEnum`, the object-field validity check, the discriminant scan).
A thrown exception is modelled by `Except.error` carrying the message. -/

abbrev Enc := RV → Except String RV

namespace E

/-- `toAny()` — the pass-through encoders `json`, `boolean`, `string`. -/
def toAny : Enc := fun v => .ok v

def json : Enc := toAny

def booleanE : Enc := toAny

def stringE : Enc := toAny

/-- `number`: throws `Cannot encode non-finite number: ${String(input)}`
unless `Number.isFinite(input)`. -/
def number : Enc := fun v =>
  match v with
  | .num n =>
    if n.isFinite then .ok (.num n)
    else .error ("Cannot encode non-finite number: " ++ jsDisplay (.num n))
  | other => .error ("Cannot encode non-finite number: " ++ jsDisplay other)

/-- `Encoder.rmap(f)`: contravariant map, transforming the input before
encoding. -/
def rmap (e : Enc) (f : RV → RV) : Enc := fun v => e (f v)

/-- `maybe(encoder)`: `Nothing ↦ {nothing:{}}`, otherwise
`{just: encoder.run(input.value)}` (the non-`Nothing` branch reads the
`value` property, as the source does). -/
def maybe (e : Enc) : Enc := fun input =>
  match input with
  | .nothing => .ok (.obj [("nothing", .obj [])])
  | other => (e (objGet other "value")).map (fun j => .obj [("just", j)])

/-- A field of an `object()` encoder definition: a plain `Encoder` or an
`EncoderOptional` (carrying its composed inner encoder, which produces
the `{nothing:{}}` / `{just: v}` presence protocol). -/
inductive EncField where
  | plain (e : Enc)
  | opt (e : Enc)

/-- `optionalMaybe(encoder)` = `EncoderOptional.from(maybe(encoder))`. -/
def optionalMaybe (e : Enc) : EncField := .opt (maybe e)

/-- `optional(encoder)`: `optionalMaybe(encoder).rmap(v => v === undefined ? Nothing() : Just(v))`. -/
def optional (e : Enc) : EncField :=
  .opt (fun input =>
    match input with
    | .undefined => maybe e .nothing
    | other => maybe e (.just other))

/-- The field loop of `object()`: a plain field always emits its key; an
`EncoderOptional` field first checks that the inner result is a non-null
object carrying a `nothing` or `just` key (else it throws
`Invalid output of EncoderOptional: ...`), then emits the key with the
`just` payload or omits it entirely. -/
def encFields : List (String × EncField) → RV → Except String (List (String × RV))
  | [], _ => .ok []
  | (name, .plain e) :: rest, input => do
    let v ← e (objGet input name)
    let r ← encFields rest input
    return (name, v) :: r
  | (name, .opt e) :: rest, input => do
    let encoded ← e (objGet input name)
    if typeofRV encoded != "object" || isNullRV encoded ||
        !(hasKey encoded "nothing" || hasKey encoded "just") then
      Except.error ("Invalid output of EncoderOptional: " ++ jsDisplay encoded)
    else
      if hasKey encoded "just" then do
        let r ← encFields rest input
        return (name, objGet encoded "just") :: r
      else
        encFields rest input

/-- `object(encoders)`: builds a Json object from the field loop. -/
def object (fds : List (String × EncField)) : Enc := fun input =>
  (encFields fds input).map RV.obj

/-- `oneOf(f)`: dynamic dispatch — select an encoder from the value,
then run it (the selector itself may throw, as the discriminated-union
selector does). -/
def oneOfE (f : RV → Except String Enc) : Enc := fun input => do
  let e ← f input
  e input

end E

/-! ## Schema layer (`src/libs/json/schema.ts`)

A `Schema<A>` pairs a decoder and an encoder; only the schema-specific
constructions appear here (the plain pairings delegate to the two layers
above). -/

/-- The encoder half of `schema.stringLiteral(str)`:
`E.string.rmap(input => { if (input != str) throw ...; return input })`. -/
def stringLiteralEnc (lit : String) : Enc := fun input =>
  match input with
  | .str s =>
    if s == lit then .ok (.str s)
    else .error ("Cannot encode '" ++ jsDisplay (.str s) ++ "'. Expected literal '" ++ lit ++ "'\x22")
  | other => .error ("Cannot encode '" ++ jsDisplay other ++ "'. Expected literal '" ++ lit ++ "'\x22")

/-- `matches(pattern, val)`: `val` is a non-null object (`typeof`
check) containing every pattern key (`key in val`) with a value
strictly equal to the pattern's literal string. (The source also guards
`pattern[key] != undefined`, which never fires: pattern values are
strings.) -/
def matchesP (pattern : List (String × String)) (val : RV) : Bool :=
  if typeofRV val != "object" || isNullRV val then false
  else
    pattern.all (fun kv =>
      hasKey val kv.1 &&
        (match objGet val kv.1 with
         | .str s => s == kv.2
         | _ => false))

/-- The encoder of `discriminatedUnion(vars)`: scan the variants in
declaration order for the first whose pattern `matches` the value and
delegate to its encoder; if none matches, throw
`Invalid discriminant in union type: '${v}'`. -/
def duEncode (vars : List (List (String × String) × Enc)) : Enc :=
  E.oneOfE (fun v =>
    match vars.find? (fun pv => matchesP pv.1 v) with
    | some pv => .ok pv.2
    | none => .error ("Invalid discriminant in union type: '" ++ jsDisplay v ++ "'"))

/-- A field of a `variant()` definition: a literal string (a
discriminant) or a nested schema (its decoder/encoder field forms). -/
inductive VField where
  | lit (s : String)
  | sub (d : D.FieldDef) (e : E.EncField)

/-- The `pattern` of a variant: `filterMap` keeping exactly the
literal-string-valued fields. -/
def variantPattern (df : List (String × VField)) : List (String × String) :=
  df.filterMap (fun kv =>
    match kv.2 with
    | .lit s => some (kv.1, s)
    | .sub _ _ => none)

/-- A constructed `Variant`: its discriminant pattern and the
decoder/encoder of its full-object schema. -/
structure VariantS where
  pattern : List (String × String)
  dec : Dec
  enc : Enc

def vfieldDec : VField → D.FieldDef
  | .lit s => .plain (D.stringLiteral s)
  | .sub d _ => d

def vfieldEnc : VField → E.EncField
  | .lit s => .plain (stringLiteralEnc s)
  | .sub _ e => e

/-- `variant(def)`: extract the pattern; a definition with zero literal
fields throws the construction-time configuration error; otherwise the
literal fields become `stringLiteral` schemas inside an `object` schema. -/
def variantS (df : List (String × VField)) : Except String VariantS :=
  if (variantPattern df).length == 0 then
    .error "Invalid variant definition. No discriminant identified. Discriminant must be provided as a string"
  else
    .ok
      { pattern := variantPattern df
        dec := D.object (df.map (fun kv => (kv.1, vfieldDec kv.2)))
        enc := E.object (df.map (fun kv => (kv.1, vfieldEnc kv.2))) }

/-! ## Non-lossy schema grammar (for the round-trip property)

The spec's round-trip claim quantifies over "any schema built purely
from non-lossy combinators (e.g. an object of string/number/boolean
fields)". `NL` is that family: the primitive schemas `string`, `number`,
`boolean` and (arbitrarily nested) `object` schemas of required fields,
each combinator paired exactly as `schema.ts` pairs it
(`D.string`/`E.string`, ..., `D.object`/`E.object`). `NLFields` mirrors
a field-definition object; JavaScript object literals cannot repeat a
key, which `wfNL` records. -/

mutual
inductive NL where
  | strS : NL
  | numS : NL
  | boolS : NL
  | objS : NLFields → NL

inductive NLFields where
  | nil : NLFields
  | cons : String → NL → NLFields → NLFields
end

mutual
/-- The decoder half of an `NL` schema, exactly as `schema.ts` pairs it. -/
def decNL : NL → Dec
  | .strS => D.string
  | .numS => D.number
  | .boolS => D.boolean
  | .objS fs => D.object (decFieldsDef fs)

def decFieldsDef : NLFields → List (String × D.FieldDef)
  | .nil => []
  | .cons n s rest => (n, .plain (decNL s)) :: decFieldsDef rest
end

mutual
/-- The encoder half of an `NL` schema. -/
def encNL : NL → Enc
  | .strS => E.stringE
  | .numS => E.number
  | .boolS => E.booleanE
  | .objS fs => E.object (encFieldsDef fs)

def encFieldsDef : NLFields → List (String × E.EncField)
  | .nil => []
  | .cons n s rest => (n, .plain (encNL s)) :: encFieldsDef rest
end

def fieldNames : NLFields → List String
  | .nil => []
  | .cons n _ rest => n :: fieldNames rest

def nodupKeys : List String → Bool
  | [] => true
  | x :: xs => !(xs.contains x) && nodupKeys xs

mutual
/-- Well-formedness of an `NL` schema: every object level has pairwise
distinct field names (JavaScript object literals cannot repeat a key). -/
def wfNL : NL → Bool
  | .objS fs => nodupKeys (fieldNames fs) && wfFieldsNL fs
  | _ => true

def wfFieldsNL : NLFields → Bool
  | .nil => true
  | .cons _ s rest => wfNL s && wfFieldsNL rest
end


/-! ## Supporting lemmas -/

/-- `decode` succeeds exactly when the underlying decoder succeeds. -/
theorem decode_success_iff (d : Dec) (input v : RV) :
    decode d input = .Success v ↔ d input = .Success v := by
  unfold decode
  cases d input <;> simp [Result.mapFailure]

/-- `Result.map` applied to a `Success`/`Failure` scrutinee. -/
theorem Result.map_success {E A B : Type} (f : A → B) (v : A) :
    (Result.Success v : Result E A).map f = .Success (f v) := rfl

/-- An `object` input that passed the shape check is not rejected. -/
theorem D.object_of_object (fds : List (String × D.FieldDef)) (input : RV)
    (hobj : typeofRV input = "object") (hnn : input ≠ RV.null) :
    D.object fds input = (D.decFields fds input).map RV.obj := by
  have hnull : isNullRV input = false := by
    cases input <;> first | rfl | exact absurd rfl hnn
  simp [D.object, hobj, hnull]

theorem exceptBind_ok {e a b : Type} (v : a) (f : a → Except e b) :
    (Except.ok v >>= f) = f v := rfl

theorem exceptBind_error {e a b : Type} (err : e) (f : a → Except e b) :
    ((Except.error err : Except e a) >>= f) = Except.error err := rfl

theorem exceptMap_ok {e a b : Type} (f : a → b) (v : a) :
    (Except.ok v : Except e a).map f = Except.ok (f v) := rfl

theorem exceptMap_error {e a b : Type} (f : a → b) (err : e) :
    (Except.error err : Except e a).map f = Except.error err := rfl

/-- **C7.** The `number` encoder throws on `NaN` and the infinities and
returns every finite number unchanged; its only failure channel is the
thrown exception (modelled by `Except.error`). -/
theorem C7_number_encoder_throws_on_nonfinite :
    (∀ i : Int, E.number (RV.num (.finite i)) = .ok (RV.num (.finite i)))
    ∧ E.number (RV.num .nan) = .error "Cannot encode non-finite number: NaN"
    ∧ E.number (RV.num .posInf) = .error "Cannot encode non-finite number: Infinity"
    ∧ E.number (RV.num .negInf) = .error "Cannot encode non-finite number: -Infinity" := by
  refine ⟨fun i => ?_, rfl, rfl, rfl⟩
  simp [E.number, JsNum.isFinite]

/-- **C10.** The `number` decoder checks only `typeof`, so it succeeds
on every JavaScript number including `NaN`, while the `number` encoder
throws on `NaN`: encode-after-decode is not total for the number schema. -/
theorem C10_number_decoder_accepts_nonfinite :
    (∀ n : JsNum, D.number (RV.num n) = .Success (RV.num n))
    ∧ D.number (RV.num .nan) = .Success (RV.num .nan)
    ∧ E.number (RV.num .nan) = .error "Cannot encode non-finite number: NaN" := by
  refine ⟨fun n => ?_, rfl, rfl⟩
  simp [D.number, typeofRV]

/-- **C2 (counterexample).** Array inputs are *not* rejected with an
"expected object" failure: `object()` tests only
`typeof input !== "object" || input === null`, which an array passes.
Decoding `[]` against `object({a: number})` fails inside the field loop
with "expected number but found undefined" at path `a`, and decoding
`[]` against `object({})` even succeeds. -/
theorem C2_array_not_rejected_counterexample :
    D.object [("a", .plain D.number)] (RV.arr []) =
      .Failure (["a"], "expected number but found undefined")
    ∧ D.object [] (RV.arr []) = .Success (RV.obj []) :=
  ⟨rfl, rfl⟩

/-- **C2 (amended).** `object(fieldDefs)` rejects with
`expected object but found <typeof>` exactly the inputs whose `typeof`
is not `"object"` or which are `null`; arrays pass that shape check and
flow into the field loop (so `[]` against `object({a: number})` fails
with "expected number but found undefined" at path `a`, not with
"expected object"). Extra keys are ignored: `{a:1,b:2}` against
`object({a: number})` succeeds as `{a:1}`. -/
theorem C2_object_shape_check_amended (fds : List (String × D.FieldDef)) (input : RV)
    (h : typeofRV input ≠ "object" ∨ input = RV.null) :
    D.object fds input = .Failure ([], "expected object but found " ++ typeofRV input)
    ∧ D.object [("a", .plain D.number)] (RV.arr []) =
        .Failure (["a"], "expected number but found undefined")
    ∧ D.object [("a", .plain D.number)]
        (RV.obj [("a", RV.num (.finite 1)), ("b", RV.num (.finite 2))]) =
        .Success (RV.obj [("a", RV.num (.finite 1))]) := by
  refine ⟨?_, rfl, rfl⟩
  rcases h with h | h
  · have hb : (typeofRV input != "object") = true := by
      simp [bne_iff_ne, h]
    simp [D.object, hb, D.failureAt]
  · subst h
    simp [D.object, isNullRV, D.failureAt, typeofRV]

/-- **C2 (witness).** The amended shape-check statement at a concrete
non-object input. -/
theorem C2_object_shape_check_amended_witness :
    D.object [] (RV.str "x") =
      .Failure ([], "expected object but found " ++ typeofRV (RV.str "x"))
    ∧ D.object [("a", .plain D.number)] (RV.arr []) =
        .Failure (["a"], "expected number but found undefined")
    ∧ D.object [("a", .plain D.number)]
        (RV.obj [("a", RV.num (.finite 1)), ("b", RV.num (.finite 2))]) =
        .Success (RV.obj [("a", RV.num (.finite 1))]) :=
  C2_object_shape_check_amended [] (RV.str "x") (Or.inl (by decide))

/-- **C8 (counterexample).** "Encoding any value `{a: n}` where `n` is a
number always emits the key `a`" fails at `n = NaN`: the `number`
encoder throws, so no output object is produced at all. -/
theorem C8_optional_default_counterexample :
    E.object [("a", E.optional E.number)] (RV.obj [("a", RV.num .nan)]) =
      .error "Cannot encode non-finite number: NaN" := rfl

/-- **C8 (amended).** For the schema
`object({a: optionalDefault(0, number)})`: decoding `{}` succeeds with
`{a: 0}` (the default substitutes for the absent key), and encoding
`{a: n}` emits the key `a` with value `n` for every finite `n`; for a
non-finite `n` the encoder throws instead of producing an object. -/
theorem C8_optional_default_amended (n : JsNum) (hnf : n.isFinite = false) :
    decode (D.object [("a", D.optionalDefault (RV.num (.finite 0)) D.number)]) (RV.obj []) =
      .Success (RV.obj [("a", RV.num (.finite 0))])
    ∧ (∀ i : Int,
        E.object [("a", E.optional E.number)] (RV.obj [("a", RV.num (.finite i))]) =
          .ok (RV.obj [("a", RV.num (.finite i))]))
    ∧ E.object [("a", E.optional E.number)] (RV.obj [("a", RV.num n)]) =
        .error ("Cannot encode non-finite number: " ++ n.display) := by
  refine ⟨rfl, fun i => rfl, ?_⟩
  have h1 : E.number (RV.num n) = .error ("Cannot encode non-finite number: " ++ n.display) := by
    simp [E.number, hnf, jsDisplay]
  simp [E.object, E.encFields, E.optional, E.maybe, objGet, List.lookup, h1,
    exceptBind_error, exceptMap_error]

/-- **C8 (witness).** The amended statement at `n = Infinity`. -/
theorem C8_optional_default_amended_witness :
    decode (D.object [("a", D.optionalDefault (RV.num (.finite 0)) D.number)]) (RV.obj []) =
      .Success (RV.obj [("a", RV.num (.finite 0))])
    ∧ (∀ i : Int,
        E.object [("a", E.optional E.number)] (RV.obj [("a", RV.num (.finite i))]) =
          .ok (RV.obj [("a", RV.num (.finite i))]))
    ∧ E.object [("a", E.optional E.number)] (RV.obj [("a", RV.num .posInf)]) =
        .error ("Cannot encode non-finite number: " ++ JsNum.posInf.display) :=
  C8_optional_default_amended .posInf rfl

/-- **C9.** `variant(def)` with zero literal-string-valued fields throws
the construction-time "no discriminant identified" error — and the
extracted pattern is empty exactly when no field is a literal; with at
least one literal field the construction succeeds and the resulting
pattern contains exactly each literal field's name paired with its
literal value. -/
theorem C9_variant_discriminant :
    (∀ df : List (String × VField), variantPattern df = [] →
      variantS df =
        .error "Invalid variant definition. No discriminant identified. Discriminant must be provided as a string")
    ∧ (∀ df : List (String × VField),
        variantPattern df = [] ↔ ∀ kv ∈ df, ∀ s, kv.2 ≠ VField.lit s)
    ∧ (∀ (df : List (String × VField)) (V : VariantS), variantS df = .ok V →
        V.pattern = variantPattern df ∧
          ∀ k s, (k, s) ∈ V.pattern ↔ (k, VField.lit s) ∈ df) := by
  refine ⟨fun df h => ?_, fun df => ?_, fun df V h => ?_⟩
  · simp [variantS, h]
  · constructor
    · intro h kv hkv s hlit
      obtain ⟨k1, f1⟩ := kv
      simp only at hlit
      subst hlit
      have : (k1, s) ∈ variantPattern df := by
        simp only [variantPattern, List.mem_filterMap]
        exact ⟨(k1, .lit s), hkv, rfl⟩
      simp [h] at this
    · intro h
      simp only [variantPattern, List.filterMap_eq_nil_iff]
      intro kv hkv
      cases hv : kv.2 with
      | lit s => exact absurd hv (h kv hkv s)
      | sub d e => rfl
  · have hne : ((variantPattern df).length == 0) = false := by
      by_contra hb
      simp at hb
      simp [variantS, hb] at h
    have hv : V.pattern = variantPattern df := by
      simp [variantS, hne] at h
      cases h
      rfl
    refine ⟨hv, fun k s => ?_⟩
    rw [hv]
    simp only [variantPattern, List.mem_filterMap]
    constructor
    · rintro ⟨⟨k2, f2⟩, hmem, heq⟩
      cases f2 with
      | lit t =>
        simp at heq
        rcases heq with ⟨h1, h2⟩
        subst h1; subst h2
        exact hmem
      | sub d e => simp at heq
    · intro hmem
      exact ⟨(k, .lit s), hmem, rfl⟩

/-- **C9 (witness).** The zero-literal-field error at a concrete
definition. -/
theorem C9_variant_discriminant_witness :
    variantS [("n", VField.sub (.plain D.number) (.plain E.number))] =
      .error "Invalid variant definition. No discriminant identified. Discriminant must be provided as a string" :=
  C9_variant_discriminant.1 [("n", VField.sub (.plain D.number) (.plain E.number))] rfl

/-- **C6.** Decoders are total functions into `Result` (the decoder
sources contain no `throw`): every run yields a `Success` or a
path-carrying `Failure`. In particular `stringified(inner)` guards the
only throwing host call, `JSON.parse`: on a string the host parser
rejects (`parse s = none`, i.e. `JSON.parse` threw) the result is the
`"Invalid JSON string"` failure; on a parsable string the parse
exception path is not taken and `inner` runs on the parsed value; on a
non-string the `string` decoder fails first. -/
theorem C6_decoders_never_throw :
    (∀ (d : Dec) (u : RV), (∃ v, d u = .Success v) ∨ ∃ p m, d u = .Failure (p, m))
    ∧ (∀ (parse : String → Option RV) (inner : Dec) (s : String), parse s = none →
        D.stringified parse inner (RV.str s) = .Failure ([], "Invalid JSON string"))
    ∧ (∀ (parse : String → Option RV) (inner : Dec) (s : String) (j : RV), parse s = some j →
        D.stringified parse inner (RV.str s) = inner j)
    ∧ (∀ (parse : String → Option RV) (inner : Dec) (u : RV), typeofRV u ≠ "string" →
        D.stringified parse inner u = .Failure ([], "expected string but found " ++ typeofRV u)) := by
  refine ⟨fun d u => ?_, fun parse inner s h => ?_, fun parse inner s j h => ?_,
    fun parse inner u h => ?_⟩
  · match hr : d u with
    | .Success v => exact Or.inl ⟨v, rfl⟩
    | .Failure (p, m) => exact Or.inr ⟨p, m, rfl⟩
  · simp [D.stringified, D.chainDec, D.string, typeofRV, h, D.fail, D.failureAt,
      Result.chain]
  · simp [D.stringified, D.chainDec, D.string, typeofRV, h, D.succeed, Result.chain]
  · simp [D.stringified, D.chainDec, D.string, h, D.failureAt, Result.chain]

/-- **C6 (witness).** The "Invalid JSON string" guard at a concrete
unparsable string (the parse function modelling `JSON.parse` throwing on
every input), a parsable one, and a non-string input. -/
theorem C6_decoders_never_throw_witness :
    D.stringified (fun _ => none) D.number (RV.str "not json") =
      .Failure ([], "Invalid JSON string")
    ∧ D.stringified (fun _ => some (RV.num (.finite 7))) D.number (RV.str "7") =
        D.number (RV.num (.finite 7))
    ∧ D.stringified (fun _ => none) D.number (RV.bool true) =
        .Failure ([], "expected string but found " ++ typeofRV (RV.bool true)) :=
  ⟨C6_decoders_never_throw.2.1 (fun _ => none) D.number "not json" rfl,
   C6_decoders_never_throw.2.2.1 (fun _ => some (RV.num (.finite 7))) D.number "7"
     (RV.num (.finite 7)) rfl,
   C6_decoders_never_throw.2.2.2 (fun _ => none) D.number (RV.bool true) (by decide)⟩

/-- When the leading fields of an `object()` definition all decode
successfully, the loop continues into the remaining fields. -/
theorem decFields_append_of_prefix (pre rest : List (String × D.FieldDef)) (input : RV)
    (prs : List (String × RV)) (h : D.decFields pre input = .Success prs) :
    D.decFields (pre ++ rest) input = (D.decFields rest input).map (fun r => prs ++ r) := by
  induction pre generalizing prs with
  | nil =>
    simp only [D.decFields] at h
    cases h
    cases hr : D.decFields rest input <;> simp [Result.map, hr]
  | cons hd tl ih =>
    obtain ⟨name, fd⟩ := hd
    simp only [D.decFields] at h
    cases hrf : D.runField fd (objGet input name) with
    | Failure e =>
      obtain ⟨p, m⟩ := e
      rw [hrf] at h
      cases h
    | Success v =>
      rw [hrf] at h
      cases htl : D.decFields tl input with
      | Failure e => rw [htl] at h; cases h
      | Success r =>
        rw [htl] at h
        cases h
        have hih := ih r htl
        simp only [List.cons_append, D.decFields, hrf]
        cases hrest : D.decFields rest input <;>
          rw [hrest] at hih <;> simp [Result.map] at hih <;> simp [hih, Result.map]

/-- **C3.** In the `object` decoder the first failing field aborts the
whole object and its name is prepended to the failure path (fields
before it must all have decoded; fields after it are never reached), and
the top-level `decode` renders the failure as
`"<message>. When parsing: <path joined by '.'>"` with the outermost
field first: decoding `{a:{b:"no"}}` against
`object({a: object({b: number})})` renders the path `a.b`. -/
theorem C3_first_failure_prepends_field (pre rest : List (String × D.FieldDef))
    (name : String) (d : Dec) (input : RV) (prs : List (String × RV))
    (p : JPath) (m : String)
    (hobj : typeofRV input = "object") (hnn : input ≠ RV.null)
    (hpre : D.decFields pre input = .Success prs)
    (hfail : d (objGet input name) = .Failure (p, m)) :
    D.object (pre ++ (name, .plain d) :: rest) input = .Failure (name :: p, m)
    ∧ decode (D.object [("a", .plain (D.object [("b", .plain D.number)]))])
        (RV.obj [("a", RV.obj [("b", RV.str "no")])]) =
        .Failure "expected number but found string. When parsing: a.b" := by
  refine ⟨?_, rfl⟩
  rw [D.object_of_object _ _ hobj hnn,
    decFields_append_of_prefix pre _ input prs hpre]
  simp [D.decFields, D.runField, hfail, Result.map]

/-- **C3 (witness).** The prepending statement at a concrete input whose
field `a` holds a string instead of a number. -/
theorem C3_first_failure_prepends_field_witness :
    D.object ([] ++ ("a", .plain D.number) :: []) (RV.obj [("a", RV.str "x")]) =
      .Failure ("a" :: [], "expected number but found string")
    ∧ decode (D.object [("a", .plain (D.object [("b", .plain D.number)]))])
        (RV.obj [("a", RV.obj [("b", RV.str "no")])]) =
        .Failure "expected number but found string. When parsing: a.b" :=
  C3_first_failure_prepends_field [] [] "a" D.number (RV.obj [("a", RV.str "x")])
    [] [] "expected number but found string" rfl (fun h => RV.noConfusion h) rfl rfl

/-- The `oneOf` loop returns the first success regardless of the errors
already accumulated. -/
theorem oneOfGo_first_success (pre : List Dec) (d : Dec) (rest : List Dec) (input v : RV)
    (hpre : ∀ d2 ∈ pre, ∃ e, d2 input = .Failure e) (hd : d input = .Success v) :
    ∀ acc, D.oneOfGo (pre ++ d :: rest) input acc = .Success v := by
  induction pre with
  | nil => intro acc; simp [D.oneOfGo, hd]
  | cons hd2 tl ih =>
    intro acc
    obtain ⟨e, he⟩ := hpre hd2 (List.mem_cons_self hd2 tl)
    simp only [List.cons_append, D.oneOfGo, he]
    exact ih (fun d2 hm => hpre d2 (List.mem_cons_of_mem hd2 hm)) (acc ++ [e])

/-- When every branch fails, the loop appends each branch's error to the
accumulator in order and returns the aggregate failure. -/
theorem oneOfGo_all_fail (ds : List Dec) (input : RV) (es : List (JPath × String))
    (h : ds.map (fun d => d input) = es.map Result.Failure) :
    ∀ acc, D.oneOfGo ds input acc =
      .Failure ([], String.intercalate "\n" ((acc ++ es).map showPath)) := by
  induction ds generalizing es with
  | nil =>
    intro acc
    cases es with
    | nil => simp [D.oneOfGo]
    | cons e es2 => simp at h
  | cons d tl ih =>
    intro acc
    cases es with
    | nil => simp at h
    | cons e es2 =>
      simp only [List.map_cons, List.cons.injEq] at h
      obtain ⟨h1, h2⟩ := h
      simp only [D.oneOfGo, h1]
      rw [ih es2 h2 (acc ++ [e])]
      simp

/-- **C5.** `oneOf(decoders)` runs the decoders in order on the same
input and returns the first success; when every branch fails it returns
a single failure at the empty path whose message joins each branch's
rendered `(path, message)` with newlines, in branch order. -/
theorem C5_oneOf_first_success_or_aggregate :
    (∀ (pre : List Dec) (d : Dec) (rest : List Dec) (input v : RV),
      (∀ d2 ∈ pre, ∃ e, d2 input = .Failure e) → d input = .Success v →
      D.oneOf (pre ++ d :: rest) input = .Success v)
    ∧ (∀ (ds : List Dec) (input : RV) (es : List (JPath × String)),
        ds.map (fun d => d input) = es.map Result.Failure →
        D.oneOf ds input = .Failure ([], String.intercalate "\n" (es.map showPath))) := by
  constructor
  · intro pre d rest input v hpre hd
    exact oneOfGo_first_success pre d rest input v hpre hd []
  · intro ds input es h
    have := oneOfGo_all_fail ds input es h []
    simpa [D.oneOf] using this

/-- **C5 (witness).** A concrete `oneOf`: the second branch succeeds
after the first fails, and an all-failing run aggregates both rendered
branch errors joined by a newline. -/
theorem C5_oneOf_witness :
    D.oneOf ([D.number] ++ D.string :: []) (RV.str "hi") = .Success (RV.str "hi")
    ∧ D.oneOf [D.number, D.string] (RV.bool true) =
        .Failure ([], String.intercalate "\n"
          ([([], "expected number but found boolean"),
            ([], "expected string but found boolean")].map showPath)) :=
  ⟨C5_oneOf_first_success_or_aggregate.1 [D.number] D.string [] (RV.str "hi") (RV.str "hi")
      (by intro d2 hm; rw [List.mem_singleton.mp hm]; exact ⟨([], "expected number but found string"), rfl⟩)
      rfl,
   C5_oneOf_first_success_or_aggregate.2 [D.number, D.string] (RV.bool true)
      [([], "expected number but found boolean"), ([], "expected string but found boolean")] rfl⟩

/-- **C4.** The `discriminatedUnion` encoder scans the variants in
declaration order and delegates to the first whose `pattern` matches the
value; `matches(pattern, val)` holds exactly when `val` is a non-null
object that has every pattern key with a value strictly equal to the
pattern's literal string; when no variant matches, the encoder throws
`Invalid discriminant in union type: '<String(v)>'`. -/
theorem C4_discriminated_union_encode :
    (∀ (pattern : List (String × String)) (v : RV),
      matchesP pattern v = true ↔
        (typeofRV v = "object" ∧ v ≠ RV.null ∧
          ∀ kv ∈ pattern, hasKey v kv.1 = true ∧ objGet v kv.1 = RV.str kv.2))
    ∧ (∀ (pre : List (List (String × String) × Enc)) (pattern : List (String × String))
        (e : Enc) (rest : List (List (String × String) × Enc)) (v : RV),
        (∀ pv ∈ pre, matchesP pv.1 v = false) → matchesP pattern v = true →
        duEncode (pre ++ (pattern, e) :: rest) v = e v)
    ∧ (∀ (vars : List (List (String × String) × Enc)) (v : RV),
        (∀ pv ∈ vars, matchesP pv.1 v = false) →
        duEncode vars v =
          .error ("Invalid discriminant in union type: '" ++ jsDisplay v ++ "'")) := by
  refine ⟨fun pattern v => ?_, fun pre pattern e rest v hpre hm => ?_, fun vars v hnone => ?_⟩
  · unfold matchesP
    constructor
    · intro h
      by_cases hobj : typeofRV v = "object"
      · by_cases hnull : isNullRV v = true
        · simp [hobj, hnull] at h
        · refine ⟨hobj, ?_, ?_⟩
          · intro hv; subst hv; simp [isNullRV] at hnull
          · intro kv hkv
            simp only [hobj, hnull] at h
            simp only [bne_self_eq_false, Bool.false_or, if_neg, Bool.not_eq_true] at h
            have h2 : (fun kv : String × String =>
                hasKey v kv.1 &&
                  (match objGet v kv.1 with
                   | .str s => s == kv.2
                   | _ => false)) kv = true := by
              rw [List.all_eq_true] at h
              · exact h kv hkv
            simp only [Bool.and_eq_true] at h2
            refine ⟨h2.1, ?_⟩
            cases hg : objGet v kv.1 with
            | str s =>
              rw [hg] at h2
              have := h2.2
              simp at this
              rw [this]
            | _ =>
              rw [hg] at h2
              simp at h2
      · simp [hobj] at h
    · rintro ⟨hobj, hnull, hkv⟩
      have hnull2 : isNullRV v = false := by
        cases v <;> first | rfl | exact absurd rfl hnull
      simp only [hobj, hnull2, bne_self_eq_false, Bool.false_or, Bool.not_eq_true,
        if_neg, List.all_eq_true]
      intro kv hm
      obtain ⟨h1, h2⟩ := hkv kv hm
      simp [h1, h2]
  · unfold duEncode E.oneOfE
    have hfind : (pre ++ (pattern, e) :: rest).find? (fun pv => matchesP pv.1 v) =
        some (pattern, e) := by
      induction pre with
      | nil => simp [List.find?, hm]
      | cons hd tl ih =>
        have hhd : matchesP hd.1 v = false := hpre hd (List.mem_cons_self hd tl)
        simp only [List.cons_append, List.find?, hhd]
        exact ih (fun pv hmem => hpre pv (List.mem_cons_of_mem hd hmem))
    simp [hfind, exceptBind_ok]
  · unfold duEncode E.oneOfE
    have hfind : vars.find? (fun pv => matchesP pv.1 v) = none := by
      rw [List.find?_eq_none]
      intro pv hmem
      simp [hnone pv hmem]
    simp [hfind, exceptBind_error]

/-- **C4 (witness).** A two-variant union delegating to the second
variant (the first does not match), and a no-match input producing the
"Invalid discriminant" error. -/
theorem C4_discriminated_union_encode_witness :
    duEncode [([("t", "a")], E.booleanE), ([("t", "b")], E.stringE)]
        (RV.obj [("t", RV.str "b")]) = E.stringE (RV.obj [("t", RV.str "b")])
    ∧ duEncode [([("t", "a")], E.booleanE)] (RV.obj []) =
        .error ("Invalid discriminant in union type: '" ++ jsDisplay (RV.obj []) ++ "'") :=
  ⟨C4_discriminated_union_encode.2.1 [([("t", "a")], E.booleanE)] [("t", "b")]
      E.stringE [] (RV.obj [("t", RV.str "b")])
      (by intro pv hm; rw [List.mem_singleton.mp hm]; rfl) rfl,
   C4_discriminated_union_encode.2.2 [([("t", "a")], E.booleanE)] (RV.obj [])
      (by intro pv hm; rw [List.mem_singleton.mp hm]; rfl)⟩

/-- The decoder field loop reads the input only through `objGet` at its
declared field names. -/
theorem decFields_congr (fds : List (String × D.FieldDef)) (u u2 : RV)
    (h : ∀ nf ∈ fds, objGet u nf.1 = objGet u2 nf.1) :
    D.decFields fds u = D.decFields fds u2 := by
  induction fds with
  | nil => rfl
  | cons hd tl ih =>
    obtain ⟨name, fd⟩ := hd
    have hhd : objGet u name = objGet u2 name := h (name, fd) (List.mem_cons_self _ tl)
    have htl := ih (fun nf hm => h nf (List.mem_cons_of_mem _ hm))
    simp only [D.decFields, hhd, htl]

/-- The encoder field loop reads the input only through `objGet` at its
declared field names. -/
theorem encFields_congr (fds : List (String × E.EncField)) (u u2 : RV)
    (h : ∀ nf ∈ fds, objGet u nf.1 = objGet u2 nf.1) :
    E.encFields fds u = E.encFields fds u2 := by
  induction fds with
  | nil => rfl
  | cons hd tl ih =>
    obtain ⟨name, fe⟩ := hd
    have hhd : objGet u name = objGet u2 name := h (name, fe) (List.mem_cons_self _ tl)
    have htl := ih (fun nf hm => h nf (List.mem_cons_of_mem _ hm))
    cases fe <;> simp only [E.encFields, hhd, htl]

theorem decFieldsDef_names : ∀ fs : NLFields, (decFieldsDef fs).map Prod.fst = fieldNames fs
  | .nil => rfl
  | .cons n s rest => by simp [decFieldsDef, fieldNames, decFieldsDef_names rest]

theorem encFieldsDef_names : ∀ fs : NLFields, (encFieldsDef fs).map Prod.fst = fieldNames fs
  | .nil => rfl
  | .cons n s rest => by simp [encFieldsDef, fieldNames, encFieldsDef_names rest]

theorem objGet_cons_self (n : String) (w : RV) (t : List (String × RV)) :
    objGet (RV.obj ((n, w) :: t)) n = w := by
  simp [objGet, List.lookup]

theorem objGet_cons_ne (n m : String) (w : RV) (t : List (String × RV))
    (h : m ≠ n) : objGet (RV.obj ((n, w) :: t)) m = objGet (RV.obj t) m := by
  have hb : (m == n) = false := by simp [h]
  simp [objGet, List.lookup, hb]

theorem typeofRV_string_inv (u : RV) (h : typeofRV u = "string") : ∃ s, u = .str s := by
  cases u <;> simp_all [typeofRV]

theorem typeofRV_number_inv (u : RV) (h : typeofRV u = "number") : ∃ n, u = .num n := by
  cases u <;> simp_all [typeofRV]

theorem typeofRV_boolean_inv (u : RV) (h : typeofRV u = "boolean") : ∃ b, u = .bool b := by
  cases u <;> simp_all [typeofRV]

theorem finiteSafe_obj (fields : List (String × RV)) :
    finiteSafe (RV.obj fields) = finiteSafeFields fields := by
  simp [finiteSafe]

mutual
/-- Round trip for the non-lossy grammar: a decoded value (with every
number finite) is a fixed point of the paired encoder, and re-decodes to
itself. -/
theorem roundtripNL : ∀ s : NL, wfNL s = true → ∀ u v : RV,
    decNL s u = .Success v → finiteSafe v = true →
    encNL s v = .ok v ∧ decNL s v = .Success v
  | .strS, _, u, v, hdec, _ => by
    simp only [decNL, encNL] at hdec ⊢
    by_cases ht : (typeofRV u == "string") = true
    · simp only [D.string, ht, if_pos] at hdec
      cases hdec
      exact ⟨rfl, by simp [D.string, ht]⟩
    · simp [D.string, ht, D.failureAt] at hdec
  | .numS, _, u, v, hdec, hfin => by
    simp only [decNL, encNL] at hdec ⊢
    by_cases ht : (typeofRV u == "number") = true
    · simp only [D.number, ht, if_pos] at hdec
      cases hdec
      obtain ⟨n, rfl⟩ := typeofRV_number_inv u (by simpa using ht)
      simp only [finiteSafe] at hfin
      exact ⟨by simp [E.number, hfin], by simp [D.number, typeofRV]⟩
    · simp [D.number, ht, D.failureAt] at hdec
  | .boolS, _, u, v, hdec, _ => by
    simp only [decNL, encNL] at hdec ⊢
    by_cases ht : (typeofRV u == "boolean") = true
    · simp only [D.boolean, ht, if_pos] at hdec
      cases hdec
      exact ⟨rfl, by simp [D.boolean, ht]⟩
    · simp [D.boolean, ht, D.failureAt] at hdec
  | .objS fs, hwf, u, v, hdec, hfin => by
    simp only [decNL, encNL] at hdec ⊢
    simp only [wfNL, Bool.and_eq_true] at hwf
    unfold D.object at hdec
    by_cases hc : (typeofRV u != "object" || isNullRV u) = true
    · simp [hc, D.failureAt] at hdec
    · simp only [hc, if_neg, Bool.false_eq_true, not_false_eq_true] at hdec
      cases hdf : D.decFields (decFieldsDef fs) u with
      | Failure e => rw [hdf] at hdec; simp [Result.map] at hdec
      | Success prs =>
        rw [hdf] at hdec
        simp only [Result.map] at hdec
        cases hdec
        rw [finiteSafe_obj] at hfin
        obtain ⟨hnames, henc, hdec2⟩ := roundtripFields fs hwf.1 hwf.2 u prs hdf hfin
        constructor
        · simp [E.object, henc, exceptMap_ok]
        · rw [D.object_of_object (decFieldsDef fs) (RV.obj prs) rfl (by intro h; cases h),
            hdec2]
          rfl

theorem roundtripFields : ∀ fs : NLFields, nodupKeys (fieldNames fs) = true →
    wfFieldsNL fs = true → ∀ (u : RV) (prs : List (String × RV)),
    D.decFields (decFieldsDef fs) u = .Success prs → finiteSafeFields prs = true →
    prs.map Prod.fst = fieldNames fs ∧
      E.encFields (encFieldsDef fs) (RV.obj prs) = .ok prs ∧
      D.decFields (decFieldsDef fs) (RV.obj prs) = .Success prs
  | .nil, _, _, u, prs, hdec, _ => by
    simp only [decFieldsDef, D.decFields] at hdec
    cases hdec
    exact ⟨rfl, rfl, rfl⟩
  | .cons n s rest, hnd, hwf, u, prs, hdec, hfin => by
    simp only [fieldNames, nodupKeys, Bool.and_eq_true, Bool.not_eq_true'] at hnd
    simp only [wfFieldsNL, Bool.and_eq_true] at hwf
    have hnmem : n ∉ fieldNames rest := by
      intro hmem
      have := List.contains_iff_exists_mem_beq.mpr ⟨n, hmem, beq_self_eq_true n⟩
      rw [hnd.1] at this
      cases this
    simp only [decFieldsDef, D.decFields, D.runField] at hdec
    cases hw : decNL s (objGet u n) with
    | Failure e => obtain ⟨p, m⟩ := e; rw [hw] at hdec; cases hdec
    | Success w =>
      rw [hw] at hdec
      cases hr : D.decFields (decFieldsDef rest) u with
      | Failure e => rw [hr] at hdec; cases hdec
      | Success r =>
        rw [hr] at hdec
        cases hdec
        simp only [finiteSafeFields, Bool.and_eq_true] at hfin
        obtain ⟨hencw, hdecw⟩ := roundtripNL s hwf.1 (objGet u n) w hw hfin.1
        obtain ⟨hnames, hencr, hdecr⟩ := roundtripFields rest hnd.2 hwf.2 u r hr hfin.2
        have hcongr : ∀ nf ∈ encFieldsDef rest,
            objGet (RV.obj ((n, w) :: r)) nf.1 = objGet (RV.obj r) nf.1 := by
          intro nf hm
          have : nf.1 ∈ fieldNames rest := by
            rw [← encFieldsDef_names rest]
            exact List.mem_map_of_mem Prod.fst hm
          exact objGet_cons_ne n nf.1 w r (fun he => hnmem (he ▸ this))
        have hcongr2 : ∀ nf ∈ decFieldsDef rest,
            objGet (RV.obj ((n, w) :: r)) nf.1 = objGet (RV.obj r) nf.1 := by
          intro nf hm
          have : nf.1 ∈ fieldNames rest := by
            rw [← decFieldsDef_names rest]
            exact List.mem_map_of_mem Prod.fst hm
          exact objGet_cons_ne n nf.1 w r (fun he => hnmem (he ▸ this))
        refine ⟨by simp [fieldNames, hnames], ?_, ?_⟩
        · simp only [encFieldsDef, E.encFields, objGet_cons_self, hencw, exceptBind_ok]
          rw [encFields_congr _ _ _ hcongr, hencr]
          rfl
        · simp only [decFieldsDef, D.decFields, D.runField, objGet_cons_self, hdecw]
          rw [decFields_congr _ _ _ hcongr2, hdecr]
end

/-- **C1 (counterexample).** The round trip fails as stated: for the
non-lossy schema `object({a: number})` the value `{a: NaN}` is decodable
(`decode` returns it as a success), yet `encode` throws on it, so
`decode(schema, encode(schema, v))` does not return `Success(v)`. -/
theorem C1_roundtrip_counterexample :
    decode (decNL (.objS (.cons "a" .numS .nil))) (RV.obj [("a", RV.num .nan)]) =
      .Success (RV.obj [("a", RV.num .nan)])
    ∧ encNL (.objS (.cons "a" .numS .nil)) (RV.obj [("a", RV.num .nan)]) =
        .error "Cannot encode non-finite number: NaN" := ⟨rfl, rfl⟩

/-- **C1 (amended).** For any schema built purely from the non-lossy
combinators (`string`, `number`, `boolean` and nested `object`s of such
fields) and any value `v` it can decode *in which every number is
finite*, encoding does not throw, the encoded value is `v` itself, and
`decode(schema, encode(schema, v))` returns `Success(v)`. (Without the
finiteness restriction the property fails, because the `number` decoder
accepts `NaN` while the `number` encoder throws on it.) -/
theorem C1_roundtrip_amended (s : NL) (u v : RV) (hwf : wfNL s = true)
    (hdec : decode (decNL s) u = .Success v) (hfin : finiteSafe v = true) :
    encNL s v = .ok v ∧ decode (decNL s) v = .Success v := by
  have h := roundtripNL s hwf u v ((decode_success_iff _ _ _).mp hdec) hfin
  exact ⟨h.1, (decode_success_iff _ _ _).mpr h.2⟩

/-- **C1 (witness).** The amended round trip at a concrete two-field
schema, starting from an input with an extra key and reordered fields. -/
theorem C1_roundtrip_amended_witness :
    encNL (.objS (.cons "a" .numS (.cons "b" .strS .nil)))
        (RV.obj [("a", RV.num (.finite 3)), ("b", RV.str "y")]) =
      .ok (RV.obj [("a", RV.num (.finite 3)), ("b", RV.str "y")])
    ∧ decode (decNL (.objS (.cons "a" .numS (.cons "b" .strS .nil))))
        (RV.obj [("a", RV.num (.finite 3)), ("b", RV.str "y")]) =
      .Success (RV.obj [("a", RV.num (.finite 3)), ("b", RV.str "y")]) :=
  C1_roundtrip_amended (.objS (.cons "a" .numS (.cons "b" .strS .nil)))
    (RV.obj [("b", RV.str "y"), ("a", RV.num (.finite 3)), ("c", RV.bool true)])
    (RV.obj [("a", RV.num (.finite 3)), ("b", RV.str "y")]) rfl rfl rfl
